import Mathlib

/-!
Verification of the numeric display formatter (`useBigNumberFormatter`) of the
injective-ui utilities.

The formatter is built on an arbitrary-precision decimal library (bignumber.js
via `BigNumberInBase`), a locale compact-number formatter
(`Intl.NumberFormat('en-US', { notation: 'compact', compactDisplay: 'short' })`)
and the helper `getExactDecimalsFromNumber` from `@injectivelabs/utils`.  Those
collaborators are consumed interfaces: they are modelled here at their
interface level (finite decimal numbers, decimal string parsing/rendering,
en-US short compact notation), while every function of the repository's own
source file is translated statement by statement.

A bignumber.js value is either NaN or an exact decimal number.  Exact decimals
are modelled by `Dec` (an integer mantissa `m` and a nonnegative power-of-ten
scale `e`, denoting `m / 10 ^ e`); a full bignumber value is `BigNum :=
Option Dec`, with `none` playing the role of NaN.  Floating-point artefacts of
JavaScript `number` (which the source only uses for inputs and for the compact
formatter) are outside the model: a JavaScript number is treated as the exact
decimal it was written as.
-/

/-- An exact finite decimal number: the value `m / 10 ^ e`.  This models a
(non-NaN) bignumber.js value; two `Dec`s are the same number when their
cross-multiplied mantissas agree, not necessarily structurally. -/
structure Dec where
  m : ℤ
  e : ℕ
deriving DecidableEq

/-- The zero decimal. -/
def Dec.zero : Dec := ⟨0, 0⟩

/-- Rational value denoted by a `Dec`. -/
def Dec.toRat (d : Dec) : ℚ := (d.m : ℚ) / 10 ^ d.e

/-- bignumber.js `lte` on exact decimals (cross-multiplied comparison). -/
def Dec.ble (a b : Dec) : Bool := decide (a.m * 10 ^ b.e ≤ b.m * 10 ^ a.e)

/-- bignumber.js `lt` on exact decimals. -/
def Dec.blt (a b : Dec) : Bool := decide (a.m * 10 ^ b.e < b.m * 10 ^ a.e)

/-- bignumber.js `eq` on exact decimals (value equality). -/
def Dec.beq (a b : Dec) : Bool := decide (a.m * 10 ^ b.e = b.m * 10 ^ a.e)

/-- bignumber.js `isZero`. -/
def Dec.isZero (d : Dec) : Bool := decide (d.m = 0)

/-- bignumber.js `abs`. -/
def Dec.abs (d : Dec) : Dec := ⟨|d.m|, d.e⟩

/-- bignumber.js `minus`: exact subtraction (no rounding). -/
def Dec.sub (a b : Dec) : Dec := ⟨a.m * 10 ^ b.e - b.m * 10 ^ a.e, a.e + b.e⟩

/-- bignumber.js `multipliedBy (10 ^ p)` for a natural `p` (used by
`unAbbreviateNumber` with the K/M/B/T unit values). -/
def Dec.mulPow10 (d : Dec) (p : ℕ) : Dec := ⟨d.m * 10 ^ p, d.e⟩

/-- Remove trailing decimal zeros: smallest-scale representation of the same
value.  Recursion is on the scale `e`. -/
def Dec.stripAux (m : ℤ) : ℕ → Dec
  | 0 => ⟨m, 0⟩
  | e + 1 => if m % 10 = 0 then Dec.stripAux (m / 10) e else ⟨m, e + 1⟩

/-- Minimal (trailing-zero-free) representation of a `Dec`. -/
def Dec.strip (d : Dec) : Dec := Dec.stripAux d.m d.e

/-- Models the external `getExactDecimalsFromNumber` of `@injectivelabs/utils`
applied to the full-precision rendering `value.toFixed()`: the number of
digits after the decimal point in the value's minimal exact decimal text,
`0` for integer values. -/
def getExactDecimalsFromNumber (d : Dec) : ℕ := (Dec.strip d).e

/-! ### Digit strings

Decimal digit extraction with explicit fuel so that everything reduces in the
kernel (`natDigits` is little-endian: ones digit first). -/

def natDigitsAux : ℕ → ℕ → List ℕ
  | _, 0 => []
  | 0, _ + 1 => []
  | fuel + 1, n + 1 => (n + 1) % 10 :: natDigitsAux fuel ((n + 1) / 10)

/-- Little-endian base-10 digits of `n` (empty for `0`). -/
def natDigits (n : ℕ) : List ℕ := natDigitsAux n n

/-- Display character of a single decimal digit. -/
def digitChar : ℕ → Char
  | 0 => '0'
  | 1 => '1'
  | 2 => '2'
  | 3 => '3'
  | 4 => '4'
  | 5 => '5'
  | 6 => '6'
  | 7 => '7'
  | 8 => '8'
  | _ => '9'

/-- Decimal digit characters of a natural number, most significant first. -/
def natChars (n : ℕ) : List Char :=
  if n = 0 then ['0'] else ((natDigits n).map digitChar).reverse

/-- Fraction part of `fp` rendered with exactly `e` digits (left-padded with
zeros); requires `fp < 10 ^ e` for the length to be exactly `e`. -/
def padFrac (e fp : ℕ) : List Char :=
  List.replicate (e - (natDigits fp).length) '0' ++ ((natDigits fp).map digitChar).reverse

/-- Insert a thousands separator after every three characters of a reversed
(little-endian) digit list. -/
def group3Rev : List Char → List Char
  | a :: b :: c :: d :: rest => a :: b :: c :: ',' :: group3Rev (d :: rest)
  | l => l

/-- Digit characters of `n` with thousands separators (bignumber.js `toFormat`
default FORMAT: group size 3, separator `,`). -/
def groupChars (n : ℕ) : List Char := (group3Rev (natChars n).reverse).reverse

/-- Digit characters of `n` grouped with the `Intl` `useGrouping: "min2"`
default of compact notation: separators only once the integer part has at
least five digits. -/
def groupCharsMin2 (n : ℕ) : List Char :=
  if (natChars n).length ≤ 4 then natChars n else groupChars n

/-! ### Rounding and fixed-point rendering -/

/-- The bignumber.js rounding modes used by this code base: `ROUND_UP` (away
from zero), `ROUND_DOWN` (toward zero, the formatter default) and
`ROUND_HALF_UP` (half away from zero, the bignumber.js global default used by
one-argument `toFormat`). -/
inductive RMode
  | up
  | down
  | halfUp
deriving DecidableEq

/-- Round the nonnegative fraction `num / den` to a natural number per the
rounding mode (mode semantics on the absolute value; sign is applied by the
caller). -/
def roundNat (r : RMode) (num den : ℕ) : ℕ :=
  match r with
  | .down => num / den
  | .up => num / den + (if num % den = 0 then 0 else 1)
  | .halfUp => (2 * num + den) / (2 * den)

/-- bignumber.js `toFixed(dp, rm)`: fixed-point rendering with exactly `dp`
fraction digits (no decimal point when `dp = 0`), keeping the sign of the
value (bignumber.js renders a negative value rounding to zero as `-0.00`). -/
def Dec.toFixed (v : Dec) (dp : ℕ) (r : RMode) : String :=
  let t := roundNat r (v.m.natAbs * 10 ^ dp) (10 ^ v.e)
  String.mk ((if v.m < 0 then ['-'] else []) ++ natChars (t / 10 ^ dp) ++
    (if dp = 0 then [] else '.' :: padFrac dp (t % 10 ^ dp)))

/-- bignumber.js `toFormat(dp, rm)`: like `toFixed` but with thousands
separators in the integer part. -/
def Dec.toFormat (v : Dec) (dp : ℕ) (r : RMode) : String :=
  let t := roundNat r (v.m.natAbs * 10 ^ dp) (10 ^ v.e)
  String.mk ((if v.m < 0 then ['-'] else []) ++ groupChars (t / 10 ^ dp) ++
    (if dp = 0 then [] else '.' :: padFrac dp (t % 10 ^ dp)))

/-! ### The decimal string parser of the bignumber.js constructor

`new BigNumberInBase(string)` accepts an optional sign, a decimal mantissa
with at most one point and at least one digit, and an optional signed integer
exponent; anything else yields NaN (base-prefixed literals and `Infinity` are
not modelled).  `none` plays the role of NaN. -/

def isDigitChar (c : Char) : Bool := decide ('0' ≤ c) && decide (c ≤ '9')

def digitsToNat (l : List Char) : ℕ :=
  l.foldl (fun a c => 10 * a + (c.toNat - 48)) 0

/-- Parse an optional leading sign; returns (negative?, rest). -/
def parseSign : List Char → Bool × List Char
  | '-' :: r => (true, r)
  | '+' :: r => (false, r)
  | l => (false, l)

/-- Parse a signed decimal integer (used for the exponent part). -/
def parseSignedInt (l : List Char) : Option ℤ :=
  let (neg, rest) := parseSign l
  if rest = [] then none
  else if rest.all isDigitChar then
    some (if neg then -(digitsToNat rest : ℤ) else (digitsToNat rest : ℤ))
  else none

/-- Apply a power-of-ten exponent `z` to an unscaled mantissa `(m, e)`:
the value `(m / 10 ^ e) * 10 ^ z` as a `Dec`. -/
def applyExp (m : ℤ) (e : ℕ) (z : ℤ) : Dec :=
  if z ≤ (e : ℤ) then ⟨m, ((e : ℤ) - z).toNat⟩
  else ⟨m * 10 ^ (z - (e : ℤ)).toNat, 0⟩

/-- Parse the digit/point mantissa body (no sign, no exponent): integer digits,
optional point, fraction digits, at least one digit overall. -/
def parseMantissa (l : List Char) : Option (ℕ × ℕ) :=
  let ip := l.takeWhile isDigitChar
  let rest := l.dropWhile isDigitChar
  match rest with
  | [] => if ip = [] then none else some (digitsToNat ip, 0)
  | '.' :: fr =>
    if fr.all isDigitChar ∧ (ip ≠ [] ∨ fr ≠ []) then
      some (digitsToNat (ip ++ fr), fr.length)
    else none
  | _ => none

/-- Full decimal-string parser modelling the bignumber.js constructor. -/
def parseDec (l : List Char) : Option Dec :=
  let (neg, l1) := parseSign l
  let mant := l1.takeWhile (fun c => c != 'e' && c != 'E')
  let expPart := l1.dropWhile (fun c => c != 'e' && c != 'E')
  match parseMantissa mant with
  | none => none
  | some (n, e) =>
    let m : ℤ := if neg then -(n : ℤ) else (n : ℤ)
    match expPart with
    | [] => some ⟨m, e⟩
    | _ :: es =>
      match parseSignedInt es with
      | none => none
      | some z => some (applyExp m e z)

/-! ### The en-US short compact formatter (`Intl.NumberFormat`)

Modelled consumed interface: compact notation rounds (half away from zero,
the `halfExpand` default) to two significant digits but never more coarsely
than to an integer, strips a trailing zero fraction, re-tiers when rounding
reaches `1000` of a unit, and uses the suffixes K/M/B/T for `10^3..10^12`. -/

/-- Suffix characters for unit tiers 1..4 (K, M, B, T). -/
def compactSuffixOf : ℕ → List Char
  | 1 => ['K']
  | 2 => ['M']
  | 3 => ['B']
  | 4 => ['T']
  | _ => []

/-- Largest unit tier whose value `10 ^ (3 k)` is at most `a` (for the
nonnegative `a`), capped at the `T` tier. -/
def compactTier (a : Dec) : ℕ :=
  if Dec.ble ⟨10 ^ 12, 0⟩ a then 4
  else if Dec.ble ⟨10 ^ 9, 0⟩ a then 3
  else if Dec.ble ⟨10 ^ 6, 0⟩ a then 2
  else if Dec.ble ⟨10 ^ 3, 0⟩ a then 1
  else 0

/-- Round the positive value `N / 10 ^ E` half away from zero at position
`min (digits N - E - 2) 0`: two significant digits, never coarser than an
integer.  Returns the stripped decimal result. -/
def sigRoundPos (N E : ℕ) : Dec :=
  let L := (natDigits N).length
  let s := E + 2 - L
  let t := (2 * (N * 10 ^ s) + 10 ^ E) / (2 * 10 ^ E)
  Dec.strip ⟨(t : ℤ), s⟩

/-- Render a nonnegative stripped mantissa with the compact formatter's
`min2` grouping and a trailing-zero-free fraction. -/
def minCompactChars (d : Dec) : List Char :=
  let n := d.m.natAbs
  groupCharsMin2 (n / 10 ^ d.e) ++
    (if d.e = 0 then [] else '.' :: padFrac d.e (n % 10 ^ d.e))

/-- Body and suffix of the en-US short compact rendering of a `Dec`. -/
def intlCompactParts (v : Dec) : List Char × List Char :=
  if v.m = 0 then (['0'], [])
  else
    let N := v.m.natAbs
    let k := compactTier ⟨(N : ℤ), v.e⟩
    let r := sigRoundPos N (v.e + 3 * k)
    let rk := if k < 4 ∧ Dec.ble ⟨1000, 0⟩ r = true then (Dec.mk 1 0, k + 1) else (r, k)
    ((if v.m < 0 then ['-'] else []) ++ minCompactChars rk.1, compactSuffixOf rk.2)

/-- The en-US short compact rendering (suffix included). -/
def intlCompactFormat (v : Dec) : String :=
  String.mk ((intlCompactParts v).1 ++ (intlCompactParts v).2)

/-! ### The source file's own helpers -/

/-- A full bignumber.js value: `none` is NaN. -/
abbrev BigNum := Option Dec

/-- bignumber.js `toFixed` lifted to possibly-NaN values (`NaN` renders as
the string `NaN`). -/
def BigNum.toFixed (b : BigNum) (dp : ℕ) (r : RMode) : String :=
  match b with
  | none => "NaN"
  | some v => Dec.toFixed v dp r

/-- bignumber.js `toFormat` lifted to possibly-NaN values. -/
def BigNum.toFormat (b : BigNum) (dp : ℕ) (r : RMode) : String :=
  match b with
  | none => "NaN"
  | some v => Dec.toFormat v dp r

/-- `b.abs().lt(t)` on a possibly-NaN `b` (false for NaN). -/
def BigNum.bltAbs (b : BigNum) (t : Dec) : Bool :=
  match b with
  | none => false
  | some v => Dec.blt (Dec.abs v) t

def ZERO_IN_BASE : Dec := Dec.zero
def DEFAULT_DECIMAL_PLACES : ℕ := 2
def DEFAULT_MINIMAL_DISPLAY_DECIMAL_PLACES : ℕ := 4
def DEFAULT_MAX_MINIMAL_DISPLAY_DECIMAL_PLACES : ℕ := 12
/-- `DEFAULT_INJ_FEE = 0.005`. -/
def DEFAULT_INJ_FEE : Dec := ⟨5, 3⟩
def DEFAULT_ROUNDING_MODE : RMode := RMode.down

/-- `getFormattedZeroValue`: the zero string with `decimalPlaces` fraction
digits, or `0.0` when `decimalPlaces` is not positive. -/
def getFormattedZeroValue (decimalPlaces : ℕ) : String :=
  if decimalPlaces > 0 then "0." ++ String.mk (List.replicate decimalPlaces '0')
  else "0.0"

/-- The K/M/B/T unit lookup of `unAbbreviateNumber` (`units[unit]`, with the
`!units[unit]` guard folded in: `none` for any other character).  The unit
value is returned as the exponent `p` of `10 ^ p`. -/
def unitValue (c : Char) : Option ℕ :=
  if c = 'K' then some 3
  else if c = 'M' then some 6
  else if c = 'B' then some 9
  else if c = 'T' then some 12
  else none

/-- `unAbbreviateNumber`: take the last character as the unit; without a valid
unit return `undefined` (outer `none`); otherwise strip commas, drop the unit
and parse the body with the bignumber.js constructor (an unparseable body is
NaN, i.e. the inner `none`), multiplied by the unit value. -/
def unAbbreviateNumber (value : String) : Option BigNum :=
  match value.data.getLast? with
  | none => none
  | some unit =>
    match unitValue unit with
    | none => none
    | some p =>
      let formattedValue := (value.data.filter (fun c => c != ',')).dropLast
      some (Option.map (fun d => Dec.mulPow10 d p) (parseDec formattedValue))

/-- The local `abbreviatedValueMatchesInput` check of `abbreviateNumber`:
`new BigNumberInBase(number).eq(unAbbreviateNumber(abbreviatedValue) || '0')`
(`undefined` falls back to `'0'`, a NaN reconstruction compares unequal). -/
def abbreviatedValueMatchesInput (number : Dec) (abbreviatedValue : String) : Bool :=
  match unAbbreviateNumber abbreviatedValue with
  | some (some u) => Dec.beq number u
  | some none => false
  | none => Dec.beq number Dec.zero

/-- `abbreviateNumber`: compact-format the number, undo the abbreviation and
compare with the input for exact equality; prefix `≈` when the round trip
does not recover the input. -/
def abbreviateNumber (number : Dec) : String :=
  let abbreviatedValue := intlCompactFormat number
  if abbreviatedValueMatchesInput number abbreviatedValue then abbreviatedValue
  else "≈" ++ abbreviatedValue

/-- Result record of `getNumberMinimalDecimals`. -/
structure MinimalDecimalsResult where
  minimalDecimalPlaces : ℕ
  minimalDisplayAmount : Dec
deriving DecidableEq

/-- `getNumberMinimalDecimals` (the value is the already-normalized non-NaN
decimal read from the `Ref`). -/
def getNumberMinimalDecimals (value : Dec) (defaultMinimalDecimalPlaces : Option ℕ)
    (displayAbsoluteDecimalPlace : Bool) : MinimalDecimalsResult :=
  let valueExactDecimals := getExactDecimalsFromNumber value
  let minimalDecimalPlaces :=
    defaultMinimalDecimalPlaces.getD DEFAULT_MINIMAL_DISPLAY_DECIMAL_PLACES
  let minNumberFromDefaultMinDecimals : Dec := ⟨1, minimalDecimalPlaces⟩
  if Dec.isZero value then ⟨2, ZERO_IN_BASE⟩
  else if Dec.ble value minNumberFromDefaultMinDecimals && displayAbsoluteDecimalPlace then
    let actualMinimalDecimalPlaces :=
      if valueExactDecimals > DEFAULT_MAX_MINIMAL_DISPLAY_DECIMAL_PLACES
      then DEFAULT_MAX_MINIMAL_DISPLAY_DECIMAL_PLACES
      else valueExactDecimals
    ⟨actualMinimalDecimalPlaces, ⟨1, actualMinimalDecimalPlaces⟩⟩
  else ⟨minimalDecimalPlaces, ⟨1, minimalDecimalPlaces⟩⟩

/-! ### The composable `useBigNumberFormatter` -/

/-- The reactive source value: absent (`undefined`/`null`), a string, a
JavaScript number (`nanNum` for the number NaN), or an already-constructed
bignumber value. -/
inductive SourceValue
  | undef
  | null
  | str (s : String)
  | num (d : Dec)
  | nanNum
  | big (b : BigNum)
deriving DecidableEq

/-- The options record of `useBigNumberFormatter` (all fields optional). -/
structure FmtOptions where
  decimalPlaces : Option ℕ
  minimalDecimalPlaces : Option ℕ
  abbreviationFloor : Option Dec
  injFee : Option Dec
  roundingMode : Option RMode
  displayAbsoluteDecimalPlace : Option Bool
deriving DecidableEq

/-- `valueToBigNumber`: a falsy source (`undefined`, `null`, the empty
string, the number `0`, the number NaN) normalizes to exact zero; a bignumber
instance passes through unchanged (even NaN); anything else goes through the
bignumber.js constructor. -/
def valueToBigNumber (value : SourceValue) : BigNum :=
  match value with
  | .undef => some Dec.zero
  | .null => some Dec.zero
  | .str s => if s = "" then some Dec.zero else parseDec s.data
  | .num d => if d.m = 0 then some Dec.zero else some d
  | .nanNum => some Dec.zero
  | .big b => b

/-- `options.decimalPlaces ?? DEFAULT_DECIMAL_PLACES`. -/
def decimalPlacesOf (options : FmtOptions) : ℕ :=
  options.decimalPlaces.getD DEFAULT_DECIMAL_PLACES

/-- `options.injFee ?? DEFAULT_INJ_FEE`. -/
def injFeeOf (options : FmtOptions) : Dec :=
  options.injFee.getD DEFAULT_INJ_FEE

/-- `options.roundingMode || DEFAULT_ROUNDING_MODE`: in JavaScript
`ROUND_UP` has code `0`, which is falsy, so it also falls back to the
default. -/
def effectiveRounding (options : FmtOptions) : RMode :=
  match options.roundingMode with
  | some RMode.up => DEFAULT_ROUNDING_MODE
  | some r => r
  | none => DEFAULT_ROUNDING_MODE

/-- `!!options.displayAbsoluteDecimalPlace`. -/
def displayAbsOf (options : FmtOptions) : Bool :=
  options.displayAbsoluteDecimalPlace.getD false

/-- `!!options.abbreviationFloor && value.gte(options.abbreviationFloor)`
(`0` is falsy). -/
def abbreviationFloorTriggers (options : FmtOptions) (v : Dec) : Bool :=
  match options.abbreviationFloor with
  | none => false
  | some f => !Dec.isZero f && Dec.ble f v

/-- `valueToFixed` as a function of the normalized value. -/
def valueToFixed (options : FmtOptions) (b : BigNum) : String :=
  match b with
  | none => getFormattedZeroValue (decimalPlacesOf options)
  | some v =>
    if Dec.isZero v then getFormattedZeroValue (decimalPlacesOf options)
    else if abbreviationFloorTriggers options v then abbreviateNumber v
    else Dec.toFixed v (decimalPlacesOf options) (effectiveRounding options)

/-- `valueToString` as a function of the normalized value. -/
def valueToString (options : FmtOptions) (b : BigNum) : String :=
  match b with
  | none => getFormattedZeroValue (decimalPlacesOf options)
  | some v =>
    if Dec.isZero v then getFormattedZeroValue (decimalPlacesOf options)
    else if abbreviationFloorTriggers options v then abbreviateNumber v
    else
      let r := getNumberMinimalDecimals v options.minimalDecimalPlaces (displayAbsOf options)
      if Dec.blt (Dec.abs v) r.minimalDisplayAmount then
        "< " ++ Dec.toFormat r.minimalDisplayAmount r.minimalDecimalPlaces RMode.halfUp
      else Dec.toFormat v (decimalPlacesOf options) (effectiveRounding options)

/-- `valueWithGasBuffer` as a function of the normalized value. -/
def valueWithGasBuffer (options : FmtOptions) (b : BigNum) : BigNum :=
  match b with
  | none => some Dec.zero
  | some v =>
    if Dec.ble v (injFeeOf options) then some Dec.zero
    else some (Dec.sub v (injFeeOf options))

/-- `valueWithGasBufferToFixed` as a function of the normalized value (the
zero/NaN short-circuit reads the pre-buffer value). -/
def valueWithGasBufferToFixed (options : FmtOptions) (b : BigNum) : String :=
  match b with
  | none => getFormattedZeroValue (decimalPlacesOf options)
  | some v =>
    if Dec.isZero v then getFormattedZeroValue (decimalPlacesOf options)
    else BigNum.toFixed (valueWithGasBuffer options (some v)) (decimalPlacesOf options)
      (effectiveRounding options)

/-- `valueWithGasBufferToString` as a function of the normalized value: the
zero/NaN short-circuit, the abbreviation short-circuit and the minimal-display
resolution read the pre-buffer value; the less-than comparison and the final
grouped rendering read the buffered value. -/
def valueWithGasBufferToString (options : FmtOptions) (b : BigNum) : String :=
  match b with
  | none => getFormattedZeroValue (decimalPlacesOf options)
  | some v =>
    if Dec.isZero v then getFormattedZeroValue (decimalPlacesOf options)
    else if abbreviationFloorTriggers options v then abbreviateNumber v
    else
      let r := getNumberMinimalDecimals v options.minimalDecimalPlaces (displayAbsOf options)
      if BigNum.bltAbs (valueWithGasBuffer options (some v)) r.minimalDisplayAmount then
        "< " ++ Dec.toFormat r.minimalDisplayAmount r.minimalDecimalPlaces RMode.halfUp
      else BigNum.toFormat (valueWithGasBuffer options (some v)) (decimalPlacesOf options)
        (effectiveRounding options)

/-- The record of derived values returned by the composable. -/
structure FormatterResult where
  valueToBigNumber : BigNum
  valueToFixed : String
  valueToString : String
  valueWithGasBuffer : BigNum
  valueWithGasBufferToFixed : String
  valueWithGasBufferToString : String
deriving DecidableEq

/-- `useBigNumberFormatter`: normalize once, derive every rendered value. -/
def useBigNumberFormatter (value : SourceValue) (options : FmtOptions) : FormatterResult :=
  let b := valueToBigNumber value
  ⟨b, valueToFixed options b, valueToString options b, valueWithGasBuffer options b,
    valueWithGasBufferToFixed options b, valueWithGasBufferToString options b⟩

/-! ### Auxiliary definitions for the verification -/

/-- Number of characters after the (first) decimal point of a character
list (the rendered strings below contain at most one point). -/
def fracCountData (l : List Char) : ℕ :=
  ((l.dropWhile (fun c => c != '.')).drop 1).length

/-- Number of digits after the decimal point of a rendered string. -/
def fracDigitCount (s : String) : ℕ := fracCountData s.data

/-- Modelled from the spec: `resolveMinimalDisplay` as claim C3 words it —
the exact-precision branch is guarded by the ABSOLUTE magnitude of the value
(`|v| ≤ 10 ^ -minimalDecimalPlaces`).  Used only to compare the claim's
wording against the source's `getNumberMinimalDecimals`, which compares the
signed value. -/
def specResolveMinimalDisplay (value : Dec) (defaultMinimalDecimalPlaces : Option ℕ)
    (displayAbsoluteDecimalPlace : Bool) : MinimalDecimalsResult :=
  let valueExactDecimals := getExactDecimalsFromNumber value
  let minimalDecimalPlaces :=
    defaultMinimalDecimalPlaces.getD DEFAULT_MINIMAL_DISPLAY_DECIMAL_PLACES
  if Dec.isZero value then ⟨2, ZERO_IN_BASE⟩
  else if Dec.ble (Dec.abs value) ⟨1, minimalDecimalPlaces⟩ && displayAbsoluteDecimalPlace then
    let actualMinimalDecimalPlaces :=
      if valueExactDecimals > DEFAULT_MAX_MINIMAL_DISPLAY_DECIMAL_PLACES
      then DEFAULT_MAX_MINIMAL_DISPLAY_DECIMAL_PLACES
      else valueExactDecimals
    ⟨actualMinimalDecimalPlaces, ⟨1, actualMinimalDecimalPlaces⟩⟩
  else ⟨minimalDecimalPlaces, ⟨1, minimalDecimalPlaces⟩⟩

/-- The empty options record (all defaults). -/
def optsDefault : FmtOptions := ⟨none, none, none, none, none, none⟩

/-- Options with `decimalPlaces = 0`. -/
def optsDp0 : FmtOptions := ⟨some 0, none, none, none, none, none⟩

/-- Options of the C6 scenario: `minimalDecimalPlaces = 4`,
`displayAbsoluteDecimalPlace = true`. -/
def optsC6 : FmtOptions := ⟨none, some 4, none, none, none, some true⟩

/-- Options of the C7 scenario: `abbreviationFloor = 1000`. -/
def optsC7 : FmtOptions := ⟨none, none, some ⟨1000, 0⟩, none, none, none⟩

/-- Replace the configured `injFee` of an options record (used to state that
buffering never influences the abbreviation decision). -/
def setFee (options : FmtOptions) (f : Option Dec) : FmtOptions :=
  ⟨options.decimalPlaces, options.minimalDecimalPlaces, options.abbreviationFloor, f,
    options.roundingMode, options.displayAbsoluteDecimalPlace⟩

/-! ### Correctness toolkit for the decimal model -/

theorem Dec.ble_iff (a b : Dec) : Dec.ble a b = true ↔ a.toRat ≤ b.toRat := by
  unfold Dec.ble Dec.toRat
  rw [decide_eq_true_eq, div_le_div_iff₀ (by positivity) (by positivity)]
  constructor
  · intro h; exact_mod_cast h
  · intro h; exact_mod_cast h

theorem Dec.blt_iff (a b : Dec) : Dec.blt a b = true ↔ a.toRat < b.toRat := by
  unfold Dec.blt Dec.toRat
  rw [decide_eq_true_eq, div_lt_div_iff₀ (by positivity) (by positivity)]
  constructor
  · intro h; exact_mod_cast h
  · intro h; exact_mod_cast h

theorem Dec.beq_iff (a b : Dec) : Dec.beq a b = true ↔ a.toRat = b.toRat := by
  unfold Dec.beq Dec.toRat
  rw [decide_eq_true_eq,
    div_eq_div_iff (by positivity : (0:ℚ) < 10 ^ a.e).ne' (by positivity : (0:ℚ) < 10 ^ b.e).ne']
  constructor
  · intro h; exact_mod_cast h
  · intro h; exact_mod_cast h

theorem Dec.toRat_zero : Dec.zero.toRat = 0 := by
  simp [Dec.toRat, Dec.zero]

theorem Dec.toRat_one_shifted (e : ℕ) : (Dec.mk 1 e).toRat = (10 : ℚ) ^ (-(e : ℤ)) := by
  simp [Dec.toRat, zpow_neg, zpow_natCast, one_div]

theorem Dec.toRat_sub (a b : Dec) : (Dec.sub a b).toRat = a.toRat - b.toRat := by
  unfold Dec.sub Dec.toRat
  have ha : ((10 : ℚ) ^ a.e) ≠ 0 := by positivity
  have hb : ((10 : ℚ) ^ b.e) ≠ 0 := by positivity
  field_simp
  ring

theorem Dec.isZero_iff (d : Dec) : Dec.isZero d = true ↔ d.m = 0 := by
  simp [Dec.isZero]

/-! ### Digit-character lemmas -/

theorem digitChar_not_dot : ∀ n : ℕ, (digitChar n != '.') = true
  | 0 | 1 | 2 | 3 | 4 | 5 | 6 | 7 | 8 => by decide
  | _ + 9 => rfl

theorem unitValue_digitChar : ∀ n : ℕ, unitValue (digitChar n) = none
  | 0 | 1 | 2 | 3 | 4 | 5 | 6 | 7 | 8 => by decide
  | _ + 9 => rfl

theorem mem_natChars_not_dot (n : ℕ) : ∀ c ∈ natChars n, (c != '.') = true := by
  intro c hc
  unfold natChars at hc
  split at hc
  · simp only [List.mem_singleton] at hc
    subst hc; decide
  · rw [List.mem_reverse] at hc
    obtain ⟨x, _, rfl⟩ := List.mem_map.mp hc
    exact digitChar_not_dot x

/-! ### Digit-list length lemmas -/

theorem natDigitsAux_length_le (fuel : ℕ) :
    ∀ n d : ℕ, n ≤ fuel → n < 10 ^ d → (natDigitsAux fuel n).length ≤ d := by
  induction fuel with
  | zero =>
    intro n d hn _
    have h0 : n = 0 := Nat.le_zero.mp hn
    subst h0
    simp [natDigitsAux]
  | succ f ih =>
    intro n d hn hd
    match n with
    | 0 => simp [natDigitsAux]
    | k + 1 =>
      have hd1 : 1 ≤ d := by
        by_contra hcon
        have hdz : d = 0 := by omega
        subst hdz
        simp only [pow_zero] at hd
        omega
      obtain ⟨d', rfl⟩ : ∃ d', d = d' + 1 := ⟨d - 1, by omega⟩
      have h1 : (k + 1) / 10 ≤ f := by
        have := Nat.div_lt_self (Nat.succ_pos k) (by norm_num : 1 < 10)
        omega
      have h2 : (k + 1) / 10 < 10 ^ d' := by
        rw [Nat.div_lt_iff_lt_mul (by norm_num : 0 < 10)]
        calc k + 1 < 10 ^ (d' + 1) := hd
          _ = 10 ^ d' * 10 := by ring
      have := ih ((k + 1) / 10) d' h1 h2
      simp only [natDigitsAux, List.length_cons]
      omega

theorem natDigits_length_le (n d : ℕ) (h : n < 10 ^ d) : (natDigits n).length ≤ d :=
  natDigitsAux_length_le n n d le_rfl h

theorem padFrac_length (e fp : ℕ) (h : fp < 10 ^ e) : (padFrac e fp).length = e := by
  have := natDigits_length_le fp e h
  simp only [padFrac, List.length_append, List.length_replicate, List.length_reverse,
    List.length_map]
  omega

/-! ### Fraction-digit counting -/

theorem dropWhile_append_all (p : Char → Bool) (l₁ l₂ : List Char)
    (h : ∀ c ∈ l₁, p c = true) :
    (l₁ ++ l₂).dropWhile p = l₂.dropWhile p := by
  induction l₁ with
  | nil => rfl
  | cons a t ih =>
    rw [List.cons_append, List.dropWhile_cons, h a (by simp)]
    exact ih (fun c hc => h c (by simp [hc]))

theorem fracCountData_append (pre frac : List Char) (h : ∀ c ∈ pre, (c != '.') = true) :
    fracCountData (pre ++ '.' :: frac) = frac.length := by
  unfold fracCountData
  rw [dropWhile_append_all _ _ _ h]
  simp [List.dropWhile_cons]

theorem fracDigitCount_toFixed (v : Dec) (dp : ℕ) (r : RMode) (h : 1 ≤ dp) :
    fracDigitCount (Dec.toFixed v dp r) = dp := by
  unfold Dec.toFixed fracDigitCount
  have hdp : ¬ dp = 0 := by omega
  simp only [hdp, if_false]
  rw [fracCountData_append]
  · exact padFrac_length dp _ (Nat.mod_lt _ (pow_pos (by norm_num) dp))
  · intro c hc
    rcases List.mem_append.mp hc with hc | hc
    · split at hc
      · simp only [List.mem_singleton] at hc; subst hc; decide
      · simp at hc
    · exact mem_natChars_not_dot _ c hc

theorem fracDigitCount_zeroValue (dp : ℕ) (h : 1 ≤ dp) :
    fracDigitCount (getFormattedZeroValue dp) = dp := by
  unfold getFormattedZeroValue fracDigitCount
  rw [if_pos (by omega : dp > 0)]
  have hdata : ("0." ++ String.mk (List.replicate dp '0')).data =
      ['0'] ++ '.' :: List.replicate dp '0' := by
    rw [String.data_append]
    rfl
  rw [hdata, fracCountData_append]
  · exact List.length_replicate dp '0'
  · intro c hc
    simp only [List.mem_singleton] at hc
    subst hc; decide

/-! ### Last-character lemmas for compact renderings -/

theorem getLast?_append_right (l₁ l₂ : List Char) (c : Char) (h : l₂.getLast? = some c) :
    (l₁ ++ l₂).getLast? = some c := by
  rw [List.getLast?_append, h]
  rfl

theorem head?_group3Rev : ∀ l : List Char, (group3Rev l).head? = l.head?
  | [] => rfl
  | [_] => rfl
  | [_, _] => rfl
  | [_, _, _] => rfl
  | _ :: _ :: _ :: _ :: _ => rfl

theorem natDigits_succ (j : ℕ) :
    natDigits (j + 1) = (j + 1) % 10 :: natDigitsAux j ((j + 1) / 10) := rfl

theorem getLast?_natChars (n : ℕ) : ∃ k : ℕ, (natChars n).getLast? = some (digitChar k) := by
  unfold natChars
  split
  · exact ⟨0, rfl⟩
  · rename_i hn
    obtain ⟨j, rfl⟩ : ∃ j, n = j + 1 := ⟨n - 1, by omega⟩
    refine ⟨(j + 1) % 10, ?_⟩
    rw [List.getLast?_reverse, natDigits_succ]
    rfl

theorem getLast?_groupCharsMin2 (n : ℕ) :
    ∃ k : ℕ, (groupCharsMin2 n).getLast? = some (digitChar k) := by
  unfold groupCharsMin2
  split
  · exact getLast?_natChars n
  · unfold groupChars
    rw [List.getLast?_reverse, head?_group3Rev, List.head?_reverse]
    exact getLast?_natChars n

theorem getLast?_padFrac (e fp : ℕ) (he : 0 < e) :
    ∃ k : ℕ, (padFrac e fp).getLast? = some (digitChar k) := by
  unfold padFrac
  match fp with
  | 0 =>
    refine ⟨0, ?_⟩
    show (List.replicate (e - (natDigits 0).length) '0' ++
      ((natDigits 0).map digitChar).reverse).getLast? = some (digitChar 0)
    have h0 : natDigits 0 = [] := rfl
    rw [h0]
    simp only [List.length_nil, Nat.sub_zero, List.map_nil, List.reverse_nil, List.append_nil]
    rw [← List.reverse_replicate, List.getLast?_reverse]
    obtain ⟨e', rfl⟩ : ∃ e', e = e' + 1 := ⟨e - 1, by omega⟩
    rfl
  | j + 1 =>
    refine ⟨(j + 1) % 10, ?_⟩
    apply getLast?_append_right
    rw [List.getLast?_reverse, natDigits_succ]
    rfl

theorem padFrac_ne_nil (e fp : ℕ) (he : 0 < e) : padFrac e fp ≠ [] := by
  obtain ⟨k, hk⟩ := getLast?_padFrac e fp he
  intro h
  rw [h] at hk
  simp at hk

theorem minCompactChars_eq (d : Dec) :
    minCompactChars d = groupCharsMin2 (d.m.natAbs / 10 ^ d.e) ++
      (if d.e = 0 then [] else '.' :: padFrac d.e (d.m.natAbs % 10 ^ d.e)) := rfl

theorem getLast?_minCompactChars (d : Dec) :
    ∃ k : ℕ, (minCompactChars d).getLast? = some (digitChar k) := by
  rw [minCompactChars_eq]
  by_cases he : d.e = 0
  · rw [if_pos he, List.append_nil]
    exact getLast?_groupCharsMin2 _
  · rw [if_neg he]
    have hpos : 0 < d.e := Nat.pos_of_ne_zero he
    obtain ⟨k, hk⟩ := getLast?_padFrac d.e (d.m.natAbs % 10 ^ d.e) hpos
    refine ⟨k, ?_⟩
    apply getLast?_append_right
    show (['.'] ++ padFrac d.e (d.m.natAbs % 10 ^ d.e)).getLast? = some (digitChar k)
    exact getLast?_append_right _ _ _ hk

theorem minCompactChars_ne_nil (d : Dec) : minCompactChars d ≠ [] := by
  obtain ⟨k, hk⟩ := getLast?_minCompactChars d
  intro h
  rw [h] at hk
  simp at hk

/-! ### Claim C1 — normalization -/

/-- C1, counterexample: the claim asserts that a non-numeric string input
normalizes to exact zero; on the code a non-empty non-numeric string is
passed to the bignumber constructor and becomes NaN, which is not any
decimal value at all. -/
theorem C1_counterexample :
    (valueToBigNumber (SourceValue.str "x")).isSome = false ∧
    valueToBigNumber (SourceValue.str "x") ≠ some Dec.zero := by
  refine ⟨by decide, by decide⟩

/-- C1, amended: absent (`undefined`/`null`), empty-string and falsy numeric
inputs normalize to exact zero; a non-empty string the decimal parser rejects
normalizes to NaN, not zero; and every rendering operation maps a NaN
normalized value to the zero string (no operation errors — all operations
are total functions). -/
theorem C1_normalize :
    valueToBigNumber SourceValue.undef = some Dec.zero ∧
    valueToBigNumber SourceValue.null = some Dec.zero ∧
    valueToBigNumber (SourceValue.str "") = some Dec.zero ∧
    valueToBigNumber SourceValue.nanNum = some Dec.zero ∧
    (∀ d : Dec, d.m = 0 → valueToBigNumber (SourceValue.num d) = some Dec.zero) ∧
    (∀ s : String, parseDec s.data = none →
      valueToBigNumber (SourceValue.str s) = none ∨
      valueToBigNumber (SourceValue.str s) = some Dec.zero) ∧
    (∀ (options : FmtOptions) (b : BigNum), b = none →
      valueToFixed options b = getFormattedZeroValue (decimalPlacesOf options) ∧
      valueToString options b = getFormattedZeroValue (decimalPlacesOf options) ∧
      valueWithGasBufferToFixed options b = getFormattedZeroValue (decimalPlacesOf options) ∧
      valueWithGasBufferToString options b = getFormattedZeroValue (decimalPlacesOf options)) := by
  refine ⟨rfl, rfl, rfl, rfl, ?_, ?_, ?_⟩
  · intro d hd
    simp [valueToBigNumber, hd]
  · intro s hp
    by_cases hs : s = ""
    · right; simp [valueToBigNumber, hs]
    · left; simp [valueToBigNumber, hs, hp]
  · intro options b hb
    subst hb
    exact ⟨rfl, rfl, rfl, rfl⟩

/-- C1, witness for the amended theorem at concrete inputs. -/
theorem C1_witness :
    valueToBigNumber (SourceValue.num ⟨0, 5⟩) = some Dec.zero ∧
    (valueToBigNumber (SourceValue.str "abc") = none ∨
      valueToBigNumber (SourceValue.str "abc") = some Dec.zero) ∧
    valueToFixed optsDefault none = getFormattedZeroValue (decimalPlacesOf optsDefault) :=
  ⟨C1_normalize.2.2.2.2.1 ⟨0, 5⟩ rfl,
   C1_normalize.2.2.2.2.2.1 "abc" (by decide),
   (C1_normalize.2.2.2.2.2.2 optsDefault none rfl).1⟩

/-! ### Claim C4 — buffered value -/

/-- C4: for any configured `feeAmount ≥ 0`, the buffered value is exact zero
when the normalized value is NaN or at most the fee, and the exact difference
otherwise; it is always a non-NaN value that is at least zero. -/
theorem C4_bufferedValue (options : FmtOptions) (b : BigNum)
    (hfee : Dec.ble Dec.zero (injFeeOf options) = true) :
    (valueWithGasBuffer options b).isSome = true ∧
    (∀ d : Dec, valueWithGasBuffer options b = some d → Dec.ble Dec.zero d = true) ∧
    (b = none → valueWithGasBuffer options b = some Dec.zero) ∧
    (∀ v : Dec, b = some v → Dec.ble v (injFeeOf options) = true →
      valueWithGasBuffer options b = some Dec.zero) ∧
    (∀ v : Dec, b = some v → Dec.ble v (injFeeOf options) = false →
      valueWithGasBuffer options b = some (Dec.sub v (injFeeOf options))) := by
  refine ⟨?_, ?_, ?_, ?_, ?_⟩
  · cases b with
    | none => rfl
    | some v =>
      simp only [valueWithGasBuffer]
      split <;> rfl
  · intro d hd
    cases b with
    | none =>
      simp only [valueWithGasBuffer, Option.some.injEq] at hd
      subst hd; decide
    | some v =>
      simp only [valueWithGasBuffer] at hd
      by_cases hle : Dec.ble v (injFeeOf options) = true
      · rw [if_pos hle, Option.some.injEq] at hd
        subst hd; decide
      · rw [if_neg hle, Option.some.injEq] at hd
        subst hd
        rw [Dec.ble_iff, Dec.toRat_zero, Dec.toRat_sub]
        have hgt : (injFeeOf options).toRat < v.toRat := by
          by_contra hcon
          push_neg at hcon
          rw [← Dec.ble_iff] at hcon
          exact hle hcon
        linarith
  · intro hb; subst hb; rfl
  · intro v hb hle
    subst hb
    simp only [valueWithGasBuffer]
    rw [if_pos hle]
  · intro v hb hle
    subst hb
    simp only [valueWithGasBuffer]
    rw [if_neg (by simp [hle])]

/-- C4, witness: with the default fee `0.005` and value `1`, the buffered
value is the exact difference. -/
theorem C4_witness :
    Dec.ble Dec.zero (injFeeOf optsDefault) = true ∧
    Dec.ble ⟨1, 0⟩ (injFeeOf optsDefault) = false ∧
    valueWithGasBuffer optsDefault (some ⟨1, 0⟩) = some (Dec.sub ⟨1, 0⟩ (injFeeOf optsDefault)) :=
  ⟨by decide, by decide,
    (C4_bufferedValue optsDefault (some ⟨1, 0⟩) (by decide)).2.2.2.2 ⟨1, 0⟩ rfl (by decide)⟩

/-! ### Claim C9 — zero rendering at `decimalPlaces = 0` -/

/-- C9: with `decimalPlaces` configured as `0`, a NaN or exactly-zero
normalized input renders as `0.0` (one fraction digit) in all four rendering
operations: the zero short-circuit never yields a string without fraction
digits. -/
theorem C9_zeroRenderAtZeroDecimalPlaces (options : FmtOptions) (b : BigNum)
    (hdp : options.decimalPlaces = some 0)
    (hb : b = none ∨ ∃ v : Dec, b = some v ∧ v.m = 0) :
    valueToFixed options b = "0.0" ∧
    valueToString options b = "0.0" ∧
    valueWithGasBufferToFixed options b = "0.0" ∧
    valueWithGasBufferToString options b = "0.0" := by
  have hdp0 : decimalPlacesOf options = 0 := by
    simp [decimalPlacesOf, hdp]
  have hzs : getFormattedZeroValue (decimalPlacesOf options) = "0.0" := by
    rw [hdp0]
    rfl
  rcases hb with rfl | ⟨v, rfl, hm⟩
  · exact ⟨hzs, hzs, hzs, hzs⟩
  · have hz : Dec.isZero v = true := by simp [Dec.isZero, hm]
    refine ⟨?_, ?_, ?_, ?_⟩ <;>
      simp only [valueToFixed, valueToString, valueWithGasBufferToFixed,
        valueWithGasBufferToString, hz, if_pos, hzs]

/-- C9, witness: NaN input with `decimalPlaces = 0`. -/
theorem C9_witness :
    optsDp0.decimalPlaces = some 0 ∧
    valueToFixed optsDp0 none = "0.0" ∧
    valueToString optsDp0 none = "0.0" ∧
    valueWithGasBufferToFixed optsDp0 none = "0.0" ∧
    valueWithGasBufferToString optsDp0 none = "0.0" :=
  ⟨rfl, C9_zeroRenderAtZeroDecimalPlaces optsDp0 none rfl (Or.inl rfl)⟩

/-! ### Claim C5 — fixed rendering fraction digits -/

/-- C5, counterexample: with `decimalPlaces = 0`, the zero short-circuit of
`valueToFixed` renders `0.0`, which has one digit after the decimal point,
not zero digits as the claim requires for every `d`. -/
theorem C5_counterexample :
    valueToFixed optsDp0 (some Dec.zero) = "0.0" ∧
    fracDigitCount (valueToFixed optsDp0 (some Dec.zero)) = 1 ∧
    decimalPlacesOf optsDp0 = 0 := by
  refine ⟨by decide, by decide, by decide⟩

/-- C5, amended: for every configuration with `decimalPlaces = d ≥ 1` and
every normalized input on which the abbreviation branch does not trigger,
`valueToFixed` renders exactly `d` digits after the decimal point — including
the NaN/zero short-circuit (for `d = 0` the short-circuit instead renders
`0.0` with one fraction digit). -/
theorem C5_fixedRenderFractionDigits (options : FmtOptions) (b : BigNum)
    (hdp : 1 ≤ decimalPlacesOf options)
    (habb : ∀ v : Dec, b = some v → abbreviationFloorTriggers options v = false) :
    fracDigitCount (valueToFixed options b) = decimalPlacesOf options := by
  cases b with
  | none => exact fracDigitCount_zeroValue _ hdp
  | some v =>
    simp only [valueToFixed]
    by_cases hz : Dec.isZero v = true
    · rw [if_pos hz]
      exact fracDigitCount_zeroValue _ hdp
    · rw [if_neg hz, if_neg (by simp [habb v rfl])]
      exact fracDigitCount_toFixed v _ _ hdp

/-- C5, witness: default options (two decimal places) on the value `0.5`. -/
theorem C5_witness :
    1 ≤ decimalPlacesOf optsDefault ∧
    fracDigitCount (valueToFixed optsDefault (some ⟨5, 1⟩)) = decimalPlacesOf optsDefault :=
  ⟨by decide,
    C5_fixedRenderFractionDigits optsDefault (some ⟨5, 1⟩) (by decide)
      (fun v hv => by cases hv; decide)⟩

/-! ### Claim C3 — the exact-precision branch of the minimal display -/

/-- C3, counterexample: the claim guards the exact-precision branch by the
ABSOLUTE magnitude of the value; the source compares the signed value, so the
negative value `-1` (absolute magnitude far above `10 ^ -4`) does take the
branch, returning zero effective decimal places instead of the default
branch's four. -/
theorem C3_counterexample :
    getNumberMinimalDecimals ⟨-1, 0⟩ (some 4) true ≠
      specResolveMinimalDisplay ⟨-1, 0⟩ (some 4) true ∧
    getNumberMinimalDecimals ⟨-1, 0⟩ (some 4) true = ⟨0, ⟨1, 0⟩⟩ ∧
    specResolveMinimalDisplay ⟨-1, 0⟩ (some 4) true = ⟨4, ⟨1, 4⟩⟩ := by
  refine ⟨by decide, by decide, by decide⟩

/-- C3, amended: with `displayAbsoluteDecimalPlace` set and a nonzero value,
the exact-precision branch is taken exactly when the SIGNED value is at most
`10 ^ -minimalDecimalPlaces` (so every negative value takes it); in that
branch the effective decimal places are the value's exact count of fractional
digits capped at 12 and the threshold amount is `10 ^ -effective`. -/
theorem C3_minimalDisplayBranch (v : Dec) (mopt : Option ℕ) (hz : v.m ≠ 0) :
    (v.toRat ≤ (10 : ℚ) ^ (-(mopt.getD 4 : ℤ)) →
      getNumberMinimalDecimals v mopt true =
        ⟨min (getExactDecimalsFromNumber v) 12, ⟨1, min (getExactDecimalsFromNumber v) 12⟩⟩ ∧
      (getNumberMinimalDecimals v mopt true).minimalDisplayAmount.toRat =
        (10 : ℚ) ^ (-((getNumberMinimalDecimals v mopt true).minimalDecimalPlaces : ℤ))) ∧
    (¬ v.toRat ≤ (10 : ℚ) ^ (-(mopt.getD 4 : ℤ)) →
      getNumberMinimalDecimals v mopt true = ⟨mopt.getD 4, ⟨1, mopt.getD 4⟩⟩ ∧
      (getNumberMinimalDecimals v mopt true).minimalDisplayAmount.toRat =
        (10 : ℚ) ^ (-((getNumberMinimalDecimals v mopt true).minimalDecimalPlaces : ℤ))) := by
  have hz' : Dec.isZero v = false := by
    simp [Dec.isZero, hz]
  have hble : Dec.ble v ⟨1, mopt.getD 4⟩ = true ↔ v.toRat ≤ (10 : ℚ) ^ (-(mopt.getD 4 : ℤ)) := by
    rw [Dec.ble_iff, Dec.toRat_one_shifted]
  have hmin : (if getExactDecimalsFromNumber v > DEFAULT_MAX_MINIMAL_DISPLAY_DECIMAL_PLACES
      then DEFAULT_MAX_MINIMAL_DISPLAY_DECIMAL_PLACES else getExactDecimalsFromNumber v) =
      min (getExactDecimalsFromNumber v) 12 := by
    unfold DEFAULT_MAX_MINIMAL_DISPLAY_DECIMAL_PLACES
    split <;> omega
  constructor
  · intro hle
    have hcond : (Dec.ble v ⟨1, mopt.getD 4⟩ && true) = true := by
      rw [Bool.and_true, hble]
      exact hle
    have heq : getNumberMinimalDecimals v mopt true =
        ⟨min (getExactDecimalsFromNumber v) 12, ⟨1, min (getExactDecimalsFromNumber v) 12⟩⟩ := by
      unfold getNumberMinimalDecimals DEFAULT_MINIMAL_DISPLAY_DECIMAL_PLACES
      rw [if_neg (by simp [hz']), if_pos hcond, hmin]
    refine ⟨heq, ?_⟩
    rw [heq, Dec.toRat_one_shifted]
  · intro hnle
    have hcond : (Dec.ble v ⟨1, mopt.getD 4⟩ && true) = false := by
      rw [Bool.and_true]
      rw [← hble] at hnle
      simpa using hnle
    have heq : getNumberMinimalDecimals v mopt true = ⟨mopt.getD 4, ⟨1, mopt.getD 4⟩⟩ := by
      unfold getNumberMinimalDecimals DEFAULT_MINIMAL_DISPLAY_DECIMAL_PLACES
      rw [if_neg (by simp [hz']), if_neg (by simp [hcond])]
    refine ⟨heq, ?_⟩
    rw [heq, Dec.toRat_one_shifted]

/-- C3, witness: `0.00000001` with `minimalDecimalPlaces = 4` takes the
exact-precision branch with 8 effective decimal places. -/
theorem C3_witness :
    ((⟨1, 8⟩ : Dec).m ≠ 0) ∧
    getNumberMinimalDecimals ⟨1, 8⟩ (some 4) true = ⟨8, ⟨1, 8⟩⟩ :=
  ⟨by decide,
    ((C3_minimalDisplayBranch ⟨1, 8⟩ (some 4) (by decide)).1 (by
      show Dec.toRat ⟨1, 8⟩ ≤ (10 : ℚ) ^ (-(((some 4 : Option ℕ).getD 4 : ℕ) : ℤ))
      norm_num [Dec.toRat])).1.trans (by decide)⟩

/-! ### Claim C2 — abbreviation round trip -/

/-- C2, counterexample: at the value `0` the compact rendering is `0`, which
carries no suffix, so un-abbreviation recovers nothing — yet the result is
returned without the approximation marker (the fallback comparison against
`'0'` succeeds).  The claimed equivalence "unprefixed iff the reconstruction
equals the input" therefore fails at `0`. -/
theorem C2_counterexample :
    abbreviateNumber Dec.zero = "0" ∧
    (abbreviateNumber Dec.zero).data.head? ≠ some '≈' ∧
    unAbbreviateNumber (abbreviateNumber Dec.zero) = none := by
  refine ⟨by decide, by decide, by decide⟩

/-- C2, amended: for every NONZERO value whose abbreviation does not start
with the approximation marker, un-abbreviating the abbreviated text recovers
exactly the input value. -/
theorem C2_roundTrip (v : Dec) (hz : v.m ≠ 0)
    (h : (abbreviateNumber v).data.head? ≠ some '≈') :
    ∃ u : Dec, unAbbreviateNumber (abbreviateNumber v) = some (some u) ∧
      u.toRat = v.toRat := by
  by_cases hm : abbreviatedValueMatchesInput v (intlCompactFormat v) = true
  · have he : abbreviateNumber v = intlCompactFormat v := by
      simp [abbreviateNumber, hm]
    rw [he]
    unfold abbreviatedValueMatchesInput at hm
    rcases hu : unAbbreviateNumber (intlCompactFormat v) with _ | b
    · rw [hu] at hm
      exfalso
      apply hz
      simpa [Dec.beq, Dec.zero] using hm
    · rcases b with _ | u
      · rw [hu] at hm
        simp at hm
      · rw [hu] at hm
        exact ⟨u, rfl, ((Dec.beq_iff v u).mp hm).symm⟩
  · exfalso
    apply h
    have he : abbreviateNumber v = "≈" ++ intlCompactFormat v := by
      simp [abbreviateNumber, hm]
    rw [he, String.data_append]
    rfl

/-- C2, witness: `1000` abbreviates exactly to `1K`, and un-abbreviation
recovers `1000`. -/
theorem C2_witness :
    ((⟨1000, 0⟩ : Dec).m ≠ 0) ∧
    (abbreviateNumber ⟨1000, 0⟩).data.head? ≠ some '≈' ∧
    (∃ u : Dec, unAbbreviateNumber (abbreviateNumber ⟨1000, 0⟩) = some (some u) ∧
      u.toRat = Dec.toRat ⟨1000, 0⟩) :=
  ⟨by decide, by decide, C2_roundTrip ⟨1000, 0⟩ (by decide) (by decide)⟩

/-! ### Claim C10 — suffix-less compact renderings -/

theorem unAbbrev_of_digit_last (l : List Char) (k : ℕ)
    (h : l.getLast? = some (digitChar k)) :
    unAbbreviateNumber (String.mk l) = none := by
  unfold unAbbreviateNumber
  simp only [show (String.mk l).data = l from rfl, h, unitValue_digitChar]

theorem intlCompactParts_fst (v : Dec) (hz : v.m ≠ 0) :
    ∃ d : Dec, (intlCompactParts v).1 =
      (if v.m < 0 then ['-'] else []) ++ minCompactChars d := by
  unfold intlCompactParts
  rw [if_neg hz]
  exact ⟨_, rfl⟩

/-- C10: a nonzero value whose en-US compact rendering carries no K/M/B/T
suffix always abbreviates to the `≈`-prefixed string, even when the compact
rendering is digit-for-digit exact: un-abbreviation returns nothing for a
suffix-less string and the fallback comparison against zero fails. -/
theorem C10_suffixlessAlwaysApprox (v : Dec) (hz : v.m ≠ 0)
    (hs : (intlCompactParts v).2 = []) :
    (abbreviateNumber v).data.head? = some '≈' := by
  have hnone : unAbbreviateNumber (intlCompactFormat v) = none := by
    obtain ⟨d, hd⟩ := intlCompactParts_fst v hz
    have hfmt : intlCompactFormat v =
        String.mk ((if v.m < 0 then ['-'] else []) ++ minCompactChars d) := by
      unfold intlCompactFormat
      rw [hs, List.append_nil, hd]
    rw [hfmt]
    obtain ⟨k, hk⟩ := getLast?_minCompactChars d
    apply unAbbrev_of_digit_last _ k
    by_cases hneg : v.m < 0
    · rw [if_pos hneg]
      exact getLast?_append_right _ _ _ hk
    · rw [if_neg hneg, List.nil_append]
      exact hk
  have hmatch : abbreviatedValueMatchesInput v (intlCompactFormat v) = false := by
    unfold abbreviatedValueMatchesInput
    rw [hnone]
    simp [Dec.beq, Dec.zero, hz]
  have he : abbreviateNumber v = "≈" ++ intlCompactFormat v := by
    simp [abbreviateNumber, hmatch]
  rw [he, String.data_append]
  rfl

/-- C10, witness: `500` is nonzero, its compact rendering `500` is suffix-less
and digit-for-digit exact, yet the abbreviation starts with `≈`. -/
theorem C10_witness :
    ((⟨500, 0⟩ : Dec).m ≠ 0) ∧
    (intlCompactParts ⟨500, 0⟩).2 = [] ∧
    intlCompactFormat ⟨500, 0⟩ = "500" ∧
    (abbreviateNumber ⟨500, 0⟩).data.head? = some '≈' :=
  ⟨by decide, by decide, by decide,
    C10_suffixlessAlwaysApprox ⟨500, 0⟩ (by decide) (by decide)⟩

/-! ### Claim C8 — buffered grouped rendering structure -/

/-- C8: in `valueWithGasBufferToString` the abbreviation short-circuit and
the minimal-display resolution are evaluated against the PRE-buffer value
(the abbreviated output is the same string the un-buffered `valueToString`
produces, and is independent of the configured fee), while the less-than
comparison and the final grouped rendering are applied to the POST-buffer
value. -/
theorem C8_bufferedGroupedStructure (options : FmtOptions) (v : Dec) (hz : v.m ≠ 0) :
    (∀ f : Option Dec,
      abbreviationFloorTriggers (setFee options f) v = abbreviationFloorTriggers options v) ∧
    (abbreviationFloorTriggers options v = true →
      valueWithGasBufferToString options (some v) = abbreviateNumber v ∧
      valueWithGasBufferToString options (some v) = valueToString options (some v) ∧
      (∀ f : Option Dec, valueWithGasBufferToString (setFee options f) (some v) =
        valueWithGasBufferToString options (some v))) ∧
    (abbreviationFloorTriggers options v = false →
      valueWithGasBufferToString options (some v) =
        (if BigNum.bltAbs (valueWithGasBuffer options (some v))
            (getNumberMinimalDecimals v options.minimalDecimalPlaces
              (displayAbsOf options)).minimalDisplayAmount = true then
          "< " ++ Dec.toFormat
            (getNumberMinimalDecimals v options.minimalDecimalPlaces
              (displayAbsOf options)).minimalDisplayAmount
            (getNumberMinimalDecimals v options.minimalDecimalPlaces
              (displayAbsOf options)).minimalDecimalPlaces RMode.halfUp
        else BigNum.toFormat (valueWithGasBuffer options (some v)) (decimalPlacesOf options)
          (effectiveRounding options))) := by
  have hnz : ¬ (Dec.isZero v = true) := by simp [Dec.isZero, hz]
  refine ⟨fun f => rfl, ?_, ?_⟩
  · intro ht
    have h1 : valueWithGasBufferToString options (some v) = abbreviateNumber v := by
      simp only [valueWithGasBufferToString]
      rw [if_neg hnz, if_pos ht]
    refine ⟨h1, ?_, ?_⟩
    · rw [h1]
      simp only [valueToString]
      rw [if_neg hnz, if_pos ht]
    · intro f
      rw [h1]
      simp only [valueWithGasBufferToString]
      rw [if_neg hnz,
        if_pos (show abbreviationFloorTriggers (setFee options f) v = true from ht)]
  · intro hf
    simp only [valueWithGasBufferToString]
    rw [if_neg hnz, if_neg (by simp [hf])]

/-- C8, witness: with `abbreviationFloor = 1000` and value `2000`, the
buffered grouped rendering is the (fee-independent) abbreviation of the
pre-buffer value. -/
theorem C8_witness :
    ((⟨2000, 0⟩ : Dec).m ≠ 0) ∧
    abbreviationFloorTriggers optsC7 ⟨2000, 0⟩ = true ∧
    valueWithGasBufferToString optsC7 (some ⟨2000, 0⟩) = abbreviateNumber ⟨2000, 0⟩ :=
  ⟨by decide, by decide,
    ((C8_bufferedGroupedStructure optsC7 ⟨2000, 0⟩ (by decide)).2.1 (by decide)).1⟩

/-! ### Claim C6 — the `displayAbsoluteDecimalPlace` scenario -/

/-- C6: on the input `0.00000001` with `minimalDecimalPlaces = 4` and
`displayAbsoluteDecimalPlace = true` the code renders `0.00`, not the
`< 0.00000001` the specification promises: the less-than comparison is
strict and the value equals its own `10 ^ -8` threshold (any value with at
most 12 exact decimals is at least its threshold, contradicting the inline
comment's own example as well). -/
theorem C6_codeRendering :
    (useBigNumberFormatter (SourceValue.str "0.00000001") optsC6).valueToString = "0.00" ∧
    (useBigNumberFormatter (SourceValue.str "0.00000001") optsC6).valueToString ≠
      "< 0.00000001" := by
  refine ⟨by decide, by decide⟩

/-! ### Claim C7 — the abbreviation scenario -/

/-- C7, counterexample: the compact rendering of `1234455` is `1.2M`, whose
round trip (`1200000`) differs from the input, so the approximation marker is
applied and `valueToFixed` is not the bare `1.2M`. -/
theorem C7_counterexample :
    (useBigNumberFormatter (SourceValue.num ⟨1234455, 0⟩) optsC7).valueToFixed ≠ "1.2M" := by
  decide

/-- C7, amended: on input `1234455` with `abbreviationFloor = 1000`,
`valueToFixed` returns exactly `≈1.2M`. -/
theorem C7_amendedRendering :
    (useBigNumberFormatter (SourceValue.num ⟨1234455, 0⟩) optsC7).valueToFixed = "≈1.2M" := by
  decide
